import Mathlib

/-!
Verification of the XRD surface-scan deconvolution pipeline.

Shallow embedding of the numerical core of the repository:
the Policy B reflective-symmetry forward-operator builder
(`XRD_Surface_Scan_Process._build_generic_matrix` in `deconvolutioner.py`),
the Policy A windowed-mask operator (`others/means_measurament.py`),
the measurement planner (`generate_measurement_points`) and the
measurement simulator (`run_simulation`).

Machine floats are idealised as exact rationals (`ℚ`); `np.round` is
round-half-to-even, Python `int()` truncates toward zero, `np.arange`
and `np.linspace` follow numpy's length conventions.  Vectors are
functions `ℕ → ℚ` with an explicit length, matrices `ℕ → ℕ → ℚ`.
-/

/-- Round half to even, the rounding rule used by `np.round`. -/
def roundHalfEven (q : ℚ) : ℤ :=
  if q - ⌊q⌋ < 1/2 then ⌊q⌋
  else if 1/2 < q - ⌊q⌋ then ⌊q⌋ + 1
  else if ⌊q⌋ % 2 = 0 then ⌊q⌋ else ⌊q⌋ + 1

/-- Python `int()` on a float: truncation toward zero. -/
def truncInt (q : ℚ) : ℤ := if 0 ≤ q then ⌊q⌋ else -⌊-q⌋

/-- `np.linspace start stop num`: `num` evenly spaced points from `start`
to `stop`; for `num = 1` numpy returns just `[start]`. -/
def linspace (start stop : ℚ) (num : ℕ) : List ℚ :=
  if num = 0 then []
  else if num = 1 then [start]
  else (List.range num).map (fun k : ℕ => start + (k : ℚ) * ((stop - start) / ((num : ℚ) - 1)))

/-- `np.arange start stop step` for `step ≠ 0`: the points
`start + k*step` for `0 ≤ k < ⌈(stop - start)/step⌉` (empty when the
ceiling is non-positive). -/
def arange (start stop step : ℚ) : List ℚ :=
  (List.range (Int.toNat ⌈(stop - start) / step⌉)).map (fun k : ℕ => start + (k : ℚ) * step)

/-- `points_per_beam = int(np.round(beam_diameter / dx)); if < 1 then 1`
from `_build_generic_matrix` (deconvolutioner.py lines 67-68). -/
def pointsPerBeam (d dx : ℚ) : ℕ := (max 1 (roundHalfEven (d / dx))).toNat

/-- `idx_j = int(np.round(abs(x_p) / dx_target))`: the reflective fold of a
sample position to its nearest grid index (deconvolutioner.py lines 82-85). -/
def foldIdx (dx p : ℚ) : ℤ := roundHalfEven (|p| / dx)

/-- The bounds check `0 <= idx_j < n_target` of deconvolutioner.py line 88. -/
def inGrid (n : ℕ) (dx p : ℚ) : Prop := 0 ≤ foldIdx dx p ∧ foldIdx dx p < (n : ℤ)

instance inGridDec (n : ℕ) (dx p : ℚ) : Decidable (inGrid n dx p) :=
  decidable_of_iff (0 ≤ foldIdx dx p ∧ foldIdx dx p < (n : ℤ)) Iff.rfl

/-- One iteration of the inner loop of `_build_generic_matrix`: fold the
sample `p`, and if its index is in the grid, add the weight to that column. -/
def addSample (n : ℕ) (dx w : ℚ) (row : ℕ → ℚ) (p : ℚ) : ℕ → ℚ :=
  if inGrid n dx p then
    fun j => if j = (foldIdx dx p).toNat then row j + w else row j
  else row

/-- The sample positions the beam at center `c` reads:
`np.linspace(c - d/2, (c - d/2) + d, points_per_beam)`
(deconvolutioner.py lines 73-77). -/
def beamSamples (dx d c : ℚ) : List ℚ :=
  linspace (c - d/2) (c - d/2 + d) (pointsPerBeam d dx)

/-- One row of the Policy B operator: the weight-accumulation loop of
`_build_generic_matrix` folded over the beam's sample positions, starting
from a zero row. -/
def buildRow (n : ℕ) (dx d c : ℚ) : ℕ → ℚ :=
  (beamSamples dx d c).foldl (addSample n dx (1 / (pointsPerBeam d dx : ℚ))) (fun _ => 0)

/-- `XRD_Surface_Scan_Process._build_generic_matrix`: the Policy B
(reflective-symmetry) forward operator for a target grid with `n` nodes and
spacing `dx`, beam diameter `d` and the given measurement centers. -/
def build_generic_matrix (n : ℕ) (dx d : ℚ) (centers : List ℚ) : ℕ → ℕ → ℚ :=
  fun i j => buildRow n dx d (centers.getD i 0) j

/-- How many of a row's samples land inside the grid after the fold. -/
def countInGrid (n : ℕ) (dx d c : ℚ) : ℕ :=
  ((beamSamples dx d c).filter (fun p => decide (inGrid n dx p))).length

/-- `XRD_Surface_Scan_Process.generate_measurement_points`:
`np.arange(0, scan_length, beam_diameter * (1 - overlap))`.  A zero step
makes `np.arange` raise (ZeroDivisionError), modelled as `none`; no other
validation is performed by the code. -/
def generate_measurement_points (beam_diameter overlap scan_length : ℚ) : Option (List ℚ) :=
  if beam_diameter * (1 - overlap) = 0 then none
  else some (arange 0 scan_length (beam_diameter * (1 - overlap)))

/-- Matrix-vector product `A @ x` for a matrix with `n` columns, entry `i`. -/
def matVecF (A : ℕ → ℕ → ℚ) (n : ℕ) (x : ℕ → ℚ) : ℕ → ℚ :=
  fun i => ∑ j ∈ Finset.range n, A i j * x j

/-- A draw from `np.random.normal(mean, std)`: `mean + std * z` where `z` is
the underlying standard-normal variate supplied by the random source. -/
def normal_sample (mean std z : ℚ) : ℚ := mean + std * z

/-- `XRD_Surface_Scan_Process.run_simulation`: clean measurements
`A_sim @ profile` plus Gaussian noise of standard deviation `std`, the
random source supplying the standard-normal draws `zs`. -/
def run_simulation (A : ℕ → ℕ → ℚ) (n : ℕ) (profile : ℕ → ℚ) (std : ℚ) (zs : ℕ → ℚ) : ℕ → ℚ :=
  fun i => matVecF A n profile i + normal_sample 0 std (zs i)

/-- `points_per_beam = int(beam_diameter / dx)` of means_measurament.py
line 19 (truncating division, unlike Policy B's rounding). -/
def points_per_beam_A (d dx : ℚ) : ℤ := truncInt (d / dx)

/-- `kernel_radius = points_per_beam // 2` (Python floor division). -/
def kernel_radius_A (d dx : ℚ) : ℤ := Int.fdiv (points_per_beam_A d dx) 2

/-- A row with uniform weight `1/(e - s)` on the index window `[s, e)` and
zero elsewhere. -/
def windowRow (s e : ℤ) : ℕ → ℚ :=
  fun j => if s ≤ (j : ℤ) ∧ (j : ℤ) < e then 1 / ((e - s : ℤ) : ℚ) else 0

/-- One row of the Policy A matrix of means_measurament.py lines 22-28:
`start = max(0, i - kr)`, `end = min(n, i + kr)`, and if the window is
nonempty every column in `[start, end)` gets `1 / window_length`. -/
def policyA_row (n : ℕ) (kr : ℤ) (i : ℕ) : ℕ → ℚ :=
  windowRow (max 0 ((i : ℤ) - kr)) (min (n : ℤ) ((i : ℤ) + kr))

/-- The full Policy A windowed-mask operator `A` of means_measurament.py. -/
def A_policyA (n : ℕ) (d dx : ℚ) : ℕ → ℕ → ℚ :=
  fun i j => policyA_row n (kernel_radius_A d dx) i j

/-- Does sample `p` land (after the reflective fold) on column `j` of an
`n`-column grid?  The event in which `_build_generic_matrix` adds weight. -/
def hitsJ (n : ℕ) (dx : ℚ) (j : ℕ) (p : ℚ) : Bool :=
  decide (inGrid n dx p ∧ j = (foldIdx dx p).toNat)

/-- Reference sample positions, written from the spec: `points_per_beam`
evenly spaced positions spanning `[c - d/2, c + d/2]`; a single position sits
at the left edge of the window. -/
def ref_sample (c d : ℚ) (ppb k : ℕ) : ℚ :=
  if ppb = 1 then c - d/2 else (c - d/2) + (k : ℚ) * (d / ((ppb : ℚ) - 1))

/-- Reference operator entry, written from the spec's words: the number of
the row's `points_per_beam` folded samples whose rounded index equals `j`
and lies in `[0, n)`, times `1 / points_per_beam`; all other entries are 0. -/
def ref_entry (n : ℕ) (dx d c : ℚ) (j : ℕ) : ℚ :=
  (((List.range (pointsPerBeam d dx)).filter
      (fun k => hitsJ n dx j (ref_sample c d (pointsPerBeam d dx) k))).length : ℚ)
    * (1 / (pointsPerBeam d dx : ℚ))

/-- Reference Policy B operator assembled row by row from `ref_entry`. -/
def ref_matrix (n : ℕ) (dx d : ℚ) (centers : List ℚ) : ℕ → ℕ → ℚ :=
  fun i j => ref_entry n dx d (centers.getD i 0) j

/-! ### Basic lemmas about the embedded operations -/

lemma pointsPerBeam_pos (d dx : ℚ) : 0 < pointsPerBeam d dx := by
  unfold pointsPerBeam
  have h : (1 : ℤ) ≤ max 1 (roundHalfEven (d / dx)) := le_max_left _ _
  omega

lemma linspace_length (a b : ℚ) (num : ℕ) : (linspace a b num).length = num := by
  unfold linspace
  split_ifs with h0 h1
  · simp [h0]
  · simp [h1]
  · simp only [List.length_map, List.length_range]

lemma beamSamples_length (dx d c : ℚ) :
    (beamSamples dx d c).length = pointsPerBeam d dx := by
  unfold beamSamples; exact linspace_length _ _ _

lemma filter_of_map_length {α β : Type} (f : α → β) (p : β → Bool) (l : List α) :
    ((l.map f).filter p).length = (l.filter (fun a => p (f a))).length := by
  induction l with
  | nil => rfl
  | cons a l ih =>
    simp only [List.map_cons, List.filter_cons]
    cases h : p (f a) <;> simp [h, ih]

lemma beamSamples_eq_map (dx d c : ℚ) :
    beamSamples dx d c =
      (List.range (pointsPerBeam d dx)).map (ref_sample c d (pointsPerBeam d dx)) := by
  unfold beamSamples
  by_cases h0 : pointsPerBeam d dx = 0
  · rw [h0]; rfl
  · by_cases h1 : pointsPerBeam d dx = 1
    · rw [h1]
      unfold linspace
      simp [ref_sample, List.range_succ]
    · unfold linspace
      rw [if_neg h0, if_neg h1]
      refine List.map_congr_left ?_
      intro k _
      simp only [ref_sample]
      rw [if_neg h1]
      ring_nf

/-- Evaluating the accumulation loop of `_build_generic_matrix` at one
column: the start value plus the weight times the number of samples that
fold onto that column. -/
lemma foldl_addSample_apply (n : ℕ) (dx w : ℚ) (ps : List ℚ) (r : ℕ → ℚ) (j : ℕ) :
    ps.foldl (addSample n dx w) r j =
      r j + w * ((ps.filter (hitsJ n dx j)).length : ℚ) := by
  induction ps generalizing r with
  | nil => simp
  | cons p ps ih =>
    rw [List.foldl_cons, ih]
    have hs : addSample n dx w r p j =
        r j + (if inGrid n dx p ∧ j = (foldIdx dx p).toNat then w else 0) := by
      unfold addSample
      by_cases h1 : inGrid n dx p
      · by_cases h2 : j = (foldIdx dx p).toNat
        · simp [h1, h2]
        · simp [h1, h2]
      · simp [h1]
    rw [hs, List.filter_cons]
    by_cases hcond : inGrid n dx p ∧ j = (foldIdx dx p).toNat
    · simp [hitsJ, hcond]
      ring
    · simp [hitsJ, hcond]

/-- Row-sum form of the accumulation loop: the start row's sum plus the
weight times the number of in-grid samples. -/
lemma foldl_addSample_sum (n : ℕ) (dx w : ℚ) (ps : List ℚ) (r : ℕ → ℚ) :
    ∑ j ∈ Finset.range n, ps.foldl (addSample n dx w) r j =
      (∑ j ∈ Finset.range n, r j) +
        w * ((ps.filter (fun p => decide (inGrid n dx p))).length : ℚ) := by
  induction ps generalizing r with
  | nil => simp
  | cons p ps ih =>
    rw [List.foldl_cons, ih]
    have hsum : ∑ j ∈ Finset.range n, addSample n dx w r p j =
        (∑ j ∈ Finset.range n, r j) + (if inGrid n dx p then w else 0) := by
      by_cases h1 : inGrid n dx p
      · have ht : (foldIdx dx p).toNat < n := by
          rcases h1 with ⟨h0, hn⟩
          omega
        unfold addSample
        rw [if_pos h1, if_pos h1]
        have hcong : ∀ j ∈ Finset.range n,
            (if j = (foldIdx dx p).toNat then r j + w else r j) =
              r j + (if j = (foldIdx dx p).toNat then w else 0) := by
          intro j _
          split_ifs <;> simp
        rw [Finset.sum_congr rfl hcong, Finset.sum_add_distrib,
          Finset.sum_ite_eq' (Finset.range n) ((foldIdx dx p).toNat) (fun _ => w)]
        simp [ht]
      · unfold addSample
        rw [if_neg h1, if_neg h1]
        simp
    rw [hsum, List.filter_cons]
    by_cases h1 : inGrid n dx p
    · simp [h1]
      ring
    · simp [h1]

/-- Closed form of one Policy B row entry: weight times hit count. -/
lemma buildRow_apply (n : ℕ) (dx d c : ℚ) (j : ℕ) :
    buildRow n dx d c j =
      (1 / (pointsPerBeam d dx : ℚ)) *
        (((beamSamples dx d c).filter (hitsJ n dx j)).length : ℚ) := by
  unfold buildRow
  rw [foldl_addSample_apply]
  simp

/-- Closed form of a Policy B row sum: in-grid samples over `points_per_beam`. -/
lemma buildRow_sum (n : ℕ) (dx d c : ℚ) :
    ∑ j ∈ Finset.range n, buildRow n dx d c j =
      (countInGrid n dx d c : ℚ) / (pointsPerBeam d dx : ℚ) := by
  unfold buildRow countInGrid
  rw [foldl_addSample_sum]
  simp only [Finset.sum_const_zero, zero_add, one_div_mul_eq_div]

/-! ### Policy A window lemmas -/

lemma filter_window_eq (n : ℕ) (s e : ℤ) (hs0 : 0 ≤ s) (hen : e ≤ (n : ℤ)) :
    (Finset.range n).filter (fun j : ℕ => s ≤ (j : ℤ) ∧ (j : ℤ) < e) =
      Finset.Ico s.toNat e.toNat := by
  ext j
  simp only [Finset.mem_filter, Finset.mem_range, Finset.mem_Ico]
  omega

lemma windowRow_card (n : ℕ) (s e : ℤ) (hs0 : 0 ≤ s) (hen : e ≤ (n : ℤ)) (hse : s < e) :
    ((Finset.range n).filter (fun j => windowRow s e j ≠ 0)).card = (e - s).toNat := by
  have hwpos : (0 : ℚ) < ((e - s : ℤ) : ℚ) := by
    exact_mod_cast (by omega : (0 : ℤ) < e - s)
  have hne : 1 / ((e - s : ℤ) : ℚ) ≠ 0 := one_div_ne_zero (ne_of_gt hwpos)
  have hfeq : (Finset.range n).filter (fun j => windowRow s e j ≠ 0) =
      (Finset.range n).filter (fun j : ℕ => s ≤ (j : ℤ) ∧ (j : ℤ) < e) := by
    apply Finset.filter_congr
    intro j _
    unfold windowRow
    by_cases hc : s ≤ (j : ℤ) ∧ (j : ℤ) < e
    · rw [if_pos hc]
      exact iff_of_true hne hc
    · rw [if_neg hc]
      exact iff_of_false (fun hx => hx rfl) hc
  rw [hfeq, filter_window_eq n s e hs0 hen, Nat.card_Ico]
  omega

lemma windowRow_val (s e : ℤ) (j : ℕ) (h : windowRow s e j ≠ 0) :
    windowRow s e j = 1 / ((e - s : ℤ) : ℚ) := by
  unfold windowRow at *
  split_ifs at * with hc
  · rfl
  · exact absurd rfl h

lemma windowRow_sum (n : ℕ) (s e : ℤ) (hs0 : 0 ≤ s) (hen : e ≤ (n : ℤ)) (hse : s < e) :
    ∑ j ∈ Finset.range n, windowRow s e j = 1 := by
  unfold windowRow
  rw [← Finset.sum_filter]
  rw [filter_window_eq n s e hs0 hen, Finset.sum_const, Nat.card_Ico]
  have hQ : ((e.toNat - s.toNat : ℕ) : ℚ) = ((e - s : ℤ) : ℚ) := by
    exact_mod_cast (by omega : ((e.toNat - s.toNat : ℕ) : ℤ) = e - s)
  have hne : ((e - s : ℤ) : ℚ) ≠ 0 := by
    exact_mod_cast (by omega : (e - s : ℤ) ≠ 0)
  rw [nsmul_eq_mul, hQ, mul_one_div, div_self hne]

/-! ### Claim theorems -/

/-- C1: the Policy B forward operator built by `_build_generic_matrix`
equals, entry for entry, the reference construction of the spec:
`points_per_beam = max(1, round(d/dx))` fixed once per build, the row's
evenly spaced samples folded by absolute value, each in-range sample
accumulating `1/points_per_beam` onto its rounded column, zero elsewhere. -/
theorem build_generic_matrix_eq_ref (n : ℕ) (dx d : ℚ) (centers : List ℚ) (i j : ℕ)
    (_hi : i < centers.length) :
    build_generic_matrix n dx d centers i j = ref_matrix n dx d centers i j := by
  unfold build_generic_matrix ref_matrix ref_entry
  rw [buildRow_apply, beamSamples_eq_map, filter_of_map_length]
  ring

/-- Witness for C1 at a concrete configuration. -/
theorem build_generic_matrix_eq_ref_witness :
    0 < ([(2 : ℚ)]).length ∧
      build_generic_matrix 3 1 2 [2] 0 1 = ref_matrix 3 1 2 [2] 0 1 := by
  have h : 0 < ([(2 : ℚ)]).length := by simp
  exact ⟨h, build_generic_matrix_eq_ref 3 1 2 [2] 0 1 h⟩

/-- C3: every Policy A row either carries uniform nonzero weights `1/k`,
with `k` the number of covered (nonzero) columns, and sums to exactly 1, or
is identically zero; no other form occurs. -/
theorem policyA_row_form (n : ℕ) (d dx : ℚ) (i : ℕ) :
    (∀ j, A_policyA n d dx i j = 0) ∨
    (∃ k : ℕ, 0 < k ∧
      ((Finset.range n).filter (fun j => A_policyA n d dx i j ≠ 0)).card = k ∧
      (∀ j, A_policyA n d dx i j ≠ 0 → A_policyA n d dx i j = 1 / (k : ℚ)) ∧
      ∑ j ∈ Finset.range n, A_policyA n d dx i j = 1) := by
  have hrow : A_policyA n d dx i = windowRow (max 0 ((i : ℤ) - kernel_radius_A d dx))
      (min (n : ℤ) ((i : ℤ) + kernel_radius_A d dx)) := rfl
  simp only [hrow]
  set s := max 0 ((i : ℤ) - kernel_radius_A d dx) with hs
  set e := min (n : ℤ) ((i : ℤ) + kernel_radius_A d dx) with he
  have hs0 : 0 ≤ s := le_max_left _ _
  have hen : e ≤ (n : ℤ) := min_le_left _ _
  by_cases hse : s < e
  · right
    refine ⟨(e - s).toNat, by omega, windowRow_card n s e hs0 hen hse, ?_,
      windowRow_sum n s e hs0 hen hse⟩
    intro j hj
    rw [windowRow_val s e j hj]
    have hQ : (((e - s).toNat : ℕ) : ℚ) = ((e - s : ℤ) : ℚ) := by
      exact_mod_cast (by omega : (((e - s).toNat : ℕ) : ℤ) = e - s)
    rw [hQ]
  · left
    intro j
    unfold windowRow
    rw [if_neg]
    rintro ⟨h1, h2⟩
    exact hse (lt_of_le_of_lt h1 h2)

/-- C4: a sample position and its negation fold to the same grid index and
make the identical weight contribution in the Policy B accumulation. -/
theorem reflective_fold_symmetric (n : ℕ) (dx w p : ℚ) (row : ℕ → ℚ) :
    foldIdx dx (-p) = foldIdx dx p ∧
      addSample n dx w row (-p) = addSample n dx w row p := by
  have h : foldIdx dx (-p) = foldIdx dx p := by
    unfold foldIdx
    rw [abs_neg]
  have h2 : inGrid n dx (-p) ↔ inGrid n dx p := by
    unfold inGrid
    rw [h]
  refine ⟨h, ?_⟩
  unfold addSample
  by_cases hg : inGrid n dx p
  · rw [if_pos hg, if_pos (h2.mpr hg), h]
  · rw [if_neg hg, if_neg (fun hc => hg (h2.mp hc))]

/-- C8: with `noise_std_dev = 0` the simulated measurement vector equals the
clean vector `A @ profile` exactly, whatever the random draws are. -/
theorem zero_noise_exact (A : ℕ → ℕ → ℚ) (n : ℕ) (profile zs : ℕ → ℚ) :
    run_simulation A n profile 0 zs = matVecF A n profile := by
  funext i
  unfold run_simulation normal_sample
  ring

/-- C9: each Policy B row sums to (in-range sample count)/points_per_beam;
the sum lies in [0,1] and equals 1 exactly when every sample lands in
the grid, so collisions never push a row sum above 1. -/
theorem policyB_row_sum (n : ℕ) (dx d c : ℚ) :
    ∑ j ∈ Finset.range n, buildRow n dx d c j =
      (countInGrid n dx d c : ℚ) / (pointsPerBeam d dx : ℚ) ∧
    countInGrid n dx d c ≤ pointsPerBeam d dx ∧
    0 ≤ ∑ j ∈ Finset.range n, buildRow n dx d c j ∧
    ∑ j ∈ Finset.range n, buildRow n dx d c j ≤ 1 ∧
    (∑ j ∈ Finset.range n, buildRow n dx d c j = 1 ↔
      countInGrid n dx d c = pointsPerBeam d dx) ∧
    (∑ j ∈ Finset.range n, buildRow n dx d c j = 1 ↔
      ∀ p ∈ beamSamples dx d c, inGrid n dx p) := by
  have hsum := buildRow_sum n dx d c
  have hle : countInGrid n dx d c ≤ pointsPerBeam d dx := by
    unfold countInGrid
    calc ((beamSamples dx d c).filter (fun p => decide (inGrid n dx p))).length ≤
        (beamSamples dx d c).length := List.length_filter_le _ _
      _ = pointsPerBeam d dx := beamSamples_length dx d c
  have hppb : (0 : ℚ) < (pointsPerBeam d dx : ℚ) := by
    exact_mod_cast pointsPerBeam_pos d dx
  have hiff : ∑ j ∈ Finset.range n, buildRow n dx d c j = 1 ↔
      countInGrid n dx d c = pointsPerBeam d dx := by
    rw [hsum, div_eq_one_iff_eq (ne_of_gt hppb)]
    exact Nat.cast_inj
  refine ⟨hsum, hle, ?_, ?_, hiff, ?_⟩
  · rw [hsum]
    positivity
  · rw [hsum, div_le_one hppb]
    exact_mod_cast hle
  · rw [hiff]
    constructor
    · intro hcnt
      have hfeq : (beamSamples dx d c).filter (fun p => decide (inGrid n dx p)) =
          beamSamples dx d c := by
        apply List.Sublist.eq_of_length (List.filter_sublist _)
        rw [beamSamples_length]
        exact hcnt
      intro p hp
      exact of_decide_eq_true (List.filter_eq_self.mp hfeq p hp)
    · intro hall
      unfold countInGrid
      rw [List.filter_eq_self.mpr (fun p hp => decide_eq_true (hall p hp)),
        beamSamples_length]

/-- C2 (amended): with zero noise, a constant profile `v` is reproduced
exactly at every Policy B row all of whose samples fold into the grid, and
at every Policy A row with a nonempty window; edge rows whose beam extends
past the grid need not reproduce `v`. -/
theorem constant_profile_fidelity :
    (∀ (n : ℕ) (dx d : ℚ) (centers : List ℚ) (i : ℕ) (v : ℚ),
        i < centers.length →
        (∀ p ∈ beamSamples dx d (centers.getD i 0), inGrid n dx p) →
        matVecF (build_generic_matrix n dx d centers) n (fun _ => v) i = v) ∧
    (∀ (n : ℕ) (d dx : ℚ) (i : ℕ) (v : ℚ),
        max 0 ((i : ℤ) - kernel_radius_A d dx) < min (n : ℤ) ((i : ℤ) + kernel_radius_A d dx) →
        matVecF (A_policyA n d dx) n (fun _ => v) i = v) := by
  constructor
  · intro n dx d centers i v _hi hall
    unfold matVecF build_generic_matrix
    rw [← Finset.sum_mul, buildRow_sum]
    have hfil : (beamSamples dx d (centers.getD i 0)).filter
        (fun p => decide (inGrid n dx p)) = beamSamples dx d (centers.getD i 0) :=
      List.filter_eq_self.mpr (fun p hp => decide_eq_true (hall p hp))
    have hcnt : countInGrid n dx d (centers.getD i 0) = pointsPerBeam d dx := by
      unfold countInGrid
      rw [hfil, beamSamples_length]
    rw [hcnt]
    have hppb : ((pointsPerBeam d dx : ℕ) : ℚ) ≠ 0 := by
      exact_mod_cast (pointsPerBeam_pos d dx).ne'
    rw [div_self hppb, one_mul]
  · intro n d dx i v hse
    unfold matVecF
    rw [← Finset.sum_mul]
    have hrow : A_policyA n d dx i = windowRow (max 0 ((i : ℤ) - kernel_radius_A d dx))
        (min (n : ℤ) ((i : ℤ) + kernel_radius_A d dx)) := rfl
    simp only [hrow]
    rw [windowRow_sum n _ _ (le_max_left _ _) (min_le_left _ _) hse, one_mul]

/-- Witness for the amended C2 at concrete configurations of both policies. -/
theorem constant_profile_fidelity_witness :
    matVecF (build_generic_matrix 2 1 1 [0]) 2 (fun _ => 7) 0 = 7 ∧
    matVecF (A_policyA 3 4 1) 3 (fun _ => 7) 1 = 7 := by
  have hppb1 : pointsPerBeam 1 1 = 1 := by
    unfold pointsPerBeam
    rw [show roundHalfEven ((1 : ℚ) / 1) = 1 by norm_num [roundHalfEven]]
    rfl
  have hf : foldIdx 1 (-(1/2) : ℚ) = 0 := by
    unfold foldIdx
    rw [show |(-(1/2) : ℚ)| / 1 = 1/2 by rw [abs_neg, abs_of_nonneg]; norm_num; norm_num]
    norm_num [roundHalfEven]
  have hsamples : beamSamples 1 1 (([(0 : ℚ)]).getD 0 0) = [-(1/2)] := by
    unfold beamSamples
    rw [hppb1]
    unfold linspace
    norm_num
  constructor
  · apply constant_profile_fidelity.1 2 1 1 [0] 0 7 (by simp)
    intro p hp
    rw [hsamples] at hp
    have hp2 : p = -(1/2) := by simpa using hp
    subst hp2
    unfold inGrid
    rw [hf]
    exact ⟨le_refl 0, by norm_num⟩
  · apply constant_profile_fidelity.2 3 4 1 1 7
    have ht : truncInt ((4 : ℚ) / 1) = 4 := by
      unfold truncInt
      norm_num
    have hkr : kernel_radius_A 4 1 = 2 := by
      unfold kernel_radius_A points_per_beam_A
      rw [ht]
      decide
    rw [hkr]
    decide

/-- C2 fails as stated: in the operator for grid length 3, spacing 1, beam
diameter 2 and centers [0,1,2], the last row's sample at position 3 folds to
index 3, outside the grid, so a constant profile of 1 measures 1/2 there. -/
theorem constant_profile_counterexample :
    matVecF (build_generic_matrix 3 1 2 (arange 0 3 1)) 3 (fun _ => 1) 2 = 1/2 ∧
    ((1 : ℚ)/2) ≠ 1 := by
  have harange : arange 0 3 1 = [0, 1, 2] := by
    unfold arange
    rw [show ⌈((3 : ℚ) - 0) / 1⌉ = 3 by norm_num, show Int.toNat 3 = 3 from rfl]
    norm_num [List.range_succ]
  have hc2 : (arange 0 3 1).getD 2 0 = 2 := by
    rw [harange]
    rfl
  have hppb : pointsPerBeam 2 1 = 2 := by
    unfold pointsPerBeam
    rw [show roundHalfEven ((2 : ℚ) / 1) = 2 by norm_num [roundHalfEven]]
    rfl
  have hsamp : beamSamples 1 2 2 = [1, 3] := by
    unfold beamSamples
    rw [hppb]
    unfold linspace
    norm_num [List.range_succ]
  have hf1 : foldIdx 1 (1 : ℚ) = 1 := by
    unfold foldIdx
    rw [show |(1 : ℚ)| / 1 = 1 by rw [abs_of_nonneg] <;> norm_num]
    norm_num [roundHalfEven]
  have hf3 : foldIdx 1 (3 : ℚ) = 3 := by
    unfold foldIdx
    rw [show |(3 : ℚ)| / 1 = 3 by rw [abs_of_nonneg] <;> norm_num]
    norm_num [roundHalfEven]
  have hg1 : inGrid 3 1 (1 : ℚ) := by
    unfold inGrid
    rw [hf1]
    exact ⟨by norm_num, by norm_num⟩
  have hg3 : ¬ inGrid 3 1 (3 : ℚ) := by
    unfold inGrid
    rw [hf3]
    intro hc
    exact absurd hc.2 (by norm_num)
  have hb : ∀ j : ℕ, build_generic_matrix 3 1 2 (arange 0 3 1) 2 j = buildRow 3 1 2 2 j := by
    intro j
    unfold build_generic_matrix
    rw [hc2]
  have hval : ∀ j : ℕ, buildRow 3 1 2 2 j =
      (1 / ((2 : ℕ) : ℚ)) * ((([(1 : ℚ), 3].filter (hitsJ 3 1 j)).length : ℚ)) := by
    intro j
    rw [buildRow_apply, hsamp, hppb]
  have ht1 : ∀ j : ℕ, hitsJ 3 1 j 1 = decide (j = 1) := by
    intro j
    unfold hitsJ
    by_cases hj : j = 1
    · subst hj
      rw [decide_eq_true (p := (1 : ℕ) = 1) rfl]
      apply decide_eq_true
      exact ⟨hg1, by rw [hf1]; rfl⟩
    · rw [decide_eq_false (p := j = 1) hj]
      apply decide_eq_false
      rintro ⟨-, hx⟩
      rw [hf1] at hx
      exact hj hx
  have ht3 : ∀ j : ℕ, hitsJ 3 1 j 3 = false := by
    intro j
    unfold hitsJ
    apply decide_eq_false
    rintro ⟨hg, -⟩
    exact hg3 hg
  have e0 : buildRow 3 1 2 2 0 = 0 := by
    rw [hval 0]
    rw [show [(1 : ℚ), 3].filter (hitsJ 3 1 0) = [] by
      simp [List.filter_cons, ht1 0, ht3 0]]
    norm_num
  have e1 : buildRow 3 1 2 2 1 = 1/2 := by
    rw [hval 1]
    rw [show [(1 : ℚ), 3].filter (hitsJ 3 1 1) = [1] by
      simp [List.filter_cons, ht1 1, ht3 1]]
    norm_num
  have e2 : buildRow 3 1 2 2 2 = 0 := by
    rw [hval 2]
    rw [show [(1 : ℚ), 3].filter (hitsJ 3 1 2) = [] by
      simp [List.filter_cons, ht1 2, ht3 2]]
    norm_num
  constructor
  · unfold matVecF
    rw [Finset.sum_range_succ, Finset.sum_range_succ, Finset.sum_range_succ,
      Finset.sum_range_zero, hb 0, hb 1, hb 2, e0, e1, e2]
    norm_num
  · norm_num

/-- C10: when `points_per_beam = 1` (beam no wider than about one target
grid spacing) the single sample of the row with center `c` is the left edge
`c - d/2` of the beam window, not the center, and the full weight 1 goes to
the grid node nearest `|c - d/2|` when that node is in range. -/
theorem single_sample_left_edge (n : ℕ) (dx d c : ℚ) (h : pointsPerBeam d dx = 1) :
    beamSamples dx d c = [c - d/2] ∧
    ∀ j, buildRow n dx d c j =
      if inGrid n dx (c - d/2) ∧ j = (foldIdx dx (c - d/2)).toNat then 1 else 0 := by
  have hlin : beamSamples dx d c = [c - d/2] := by
    unfold beamSamples
    rw [h]
    rfl
  refine ⟨hlin, ?_⟩
  intro j
  unfold buildRow
  rw [foldl_addSample_apply, hlin, h]
  by_cases hcond : inGrid n dx (c - d/2) ∧ j = (foldIdx dx (c - d/2)).toNat
  · rw [if_pos hcond]
    rw [show [c - d/2].filter (hitsJ n dx j) = [c - d/2] by
      simp [List.filter_cons, hitsJ, hcond]]
    norm_num
  · rw [if_neg hcond]
    rw [show [c - d/2].filter (hitsJ n dx j) = [] by
      simp [List.filter_cons, hitsJ, hcond]]
    norm_num

/-- Witness for C10: a beam of diameter 1 on a unit grid has one sample, at
the window's left edge, and the row carries full weight on its fold index. -/
theorem single_sample_left_edge_witness :
    pointsPerBeam 1 1 = 1 ∧ buildRow 2 1 1 1 0 = 1 := by
  have h : pointsPerBeam 1 1 = 1 := by
    unfold pointsPerBeam
    rw [show roundHalfEven ((1 : ℚ) / 1) = 1 by norm_num [roundHalfEven]]
    rfl
  refine ⟨h, ?_⟩
  rw [(single_sample_left_edge 2 1 1 1 h).2 0]
  have hf : foldIdx 1 ((1 : ℚ) - 1/2) = 0 := by
    unfold foldIdx
    rw [show |(1 : ℚ) - 1/2| / 1 = 1/2 by rw [show (1 : ℚ) - 1/2 = 1/2 by norm_num,
      abs_of_nonneg] <;> norm_num]
    norm_num [roundHalfEven]
  rw [if_pos]
  constructor
  · unfold inGrid
    rw [hf]
    exact ⟨le_refl 0, by norm_num⟩
  · rw [hf]
    rfl

/-- C7: for positive beam diameter, overlap in [0,1) and positive scan
length, the planner emits exactly the multiples of
`step = beam_diameter * (1 - overlap)` lying strictly below `scan_length`,
in strictly increasing order. -/
theorem planner_centers (d o L : ℚ) (hd : 0 < d) (_ho0 : 0 ≤ o) (ho1 : o < 1) (_hL : 0 < L) :
    ∃ centers : List ℚ,
      generate_measurement_points d o L = some centers ∧
      centers = (List.range (Int.toNat ⌈L / (d * (1 - o))⌉)).map
        (fun k : ℕ => (k : ℚ) * (d * (1 - o))) ∧
      (∀ x : ℚ, x ∈ centers ↔ ∃ k : ℕ, x = (k : ℚ) * (d * (1 - o)) ∧ x < L) ∧
      centers.Pairwise (· < ·) := by
  have hstep : 0 < d * (1 - o) := mul_pos hd (by linarith)
  have hmap : arange 0 L (d * (1 - o)) = (List.range (Int.toNat ⌈L / (d * (1 - o))⌉)).map
      (fun k : ℕ => (k : ℚ) * (d * (1 - o))) := by
    unfold arange
    rw [sub_zero]
    refine List.map_congr_left ?_
    intro k _
    ring
  refine ⟨arange 0 L (d * (1 - o)), ?_, hmap, ?_, ?_⟩
  · unfold generate_measurement_points
    rw [if_neg (ne_of_gt hstep)]
  · intro x
    rw [hmap]
    constructor
    · intro hx
      rcases List.mem_map.mp hx with ⟨k, hk, rfl⟩
      have hkr := List.mem_range.mp hk
      refine ⟨k, rfl, ?_⟩
      have h1 : (k : ℤ) < ⌈L / (d * (1 - o))⌉ := by omega
      have h2 : (k : ℚ) < L / (d * (1 - o)) := by exact_mod_cast Int.lt_ceil.mp h1
      exact (lt_div_iff₀ hstep).mp h2
    · rintro ⟨k, rfl, hkL⟩
      apply List.mem_map.mpr
      refine ⟨k, ?_, rfl⟩
      apply List.mem_range.mpr
      have h2 : (k : ℚ) < L / (d * (1 - o)) := (lt_div_iff₀ hstep).mpr hkL
      have h1 : (k : ℤ) < ⌈L / (d * (1 - o))⌉ := Int.lt_ceil.mpr (by exact_mod_cast h2)
      omega
  · rw [hmap, List.pairwise_map]
    apply List.Pairwise.imp ?_ (List.pairwise_lt_range _)
    intro a b hab
    have hq : (a : ℚ) < (b : ℚ) := by exact_mod_cast hab
    exact mul_lt_mul_of_pos_right hq hstep

/-- Witness for C7 at the spec's example: beam 0.5, overlap 0.5, scan length
3.5, giving the 14 centers 0.0, 0.25, ..., 3.25. -/
theorem planner_centers_witness :
    generate_measurement_points (1/2) (1/2) (7/2) =
      some [0, 1/4, 1/2, 3/4, 1, 5/4, 3/2, 7/4, 2, 9/4, 5/2, 11/4, 3, 13/4] := by
  obtain ⟨centers, h1, h2, -, -⟩ :=
    planner_centers (1/2) (1/2) (7/2) (by norm_num) (by norm_num) (by norm_num) (by norm_num)
  rw [h1, h2]
  rw [show ⌈(7 : ℚ)/2 / ((1/2) * (1 - 1/2))⌉ = 14 by norm_num,
    show Int.toNat 14 = 14 from rfl]
  norm_num [List.range_succ]

/-- C6 (amended): the planner performs no validation.  A negative step
(overlap ratio above 1, or negative beam diameter) silently yields an empty
center list; only a zero step fails, with numpy's arange division error,
which is not an InvalidConfiguration check. -/
theorem planner_no_validation (d o L : ℚ) :
    (d * (1 - o) < 0 → 0 < L → generate_measurement_points d o L = some []) ∧
    (d * (1 - o) = 0 → generate_measurement_points d o L = none) := by
  constructor
  · intro hneg hL
    unfold generate_measurement_points
    rw [if_neg (ne_of_lt hneg)]
    congr 1
    unfold arange
    have hc : ⌈(L - 0) / (d * (1 - o))⌉ ≤ 0 := by
      have hlt : (L - 0) / (d * (1 - o)) < 0 := div_neg_of_pos_of_neg (by linarith) hneg
      rw [Int.ceil_le]
      exact_mod_cast le_of_lt hlt
    rw [show Int.toNat ⌈(L - 0) / (d * (1 - o))⌉ = 0 by omega]
    rfl
  · intro h0
    unfold generate_measurement_points
    rw [if_pos h0]

/-- C6 fails as stated: an overlap ratio of 1.5 (an invalid configuration
with negative step) produces an empty center list and raises nothing. -/
theorem planner_counterexample :
    ((1 : ℚ)/2) * (1 - 3/2) < 0 ∧
    generate_measurement_points (1/2) (3/2) (7/2) = some [] := by
  refine ⟨by norm_num, ?_⟩
  unfold generate_measurement_points
  rw [if_neg (by norm_num)]
  congr 1
  unfold arange
  rw [show ⌈((7 : ℚ)/2 - 0) / ((1/2) * (1 - 3/2))⌉ = -14 by
    rw [show ((7 : ℚ)/2 - 0) / ((1/2) * (1 - 3/2)) = ((-14 : ℤ) : ℚ) by norm_num]
    exact @Int.ceil_intCast ℚ _ _ (-14)]
  rfl

/-- Witness for the amended C6: overlap 2 gives an empty list, overlap 1
(zero step) gives the arange failure. -/
theorem planner_no_validation_witness :
    generate_measurement_points 1 2 1 = some [] ∧
    generate_measurement_points 1 1 1 = none := by
  exact ⟨(planner_no_validation 1 2 1).1 (by norm_num) (by norm_num),
    (planner_no_validation 1 1 1).2 (by norm_num)⟩
